import Mathlib

set_option maxRecDepth 100000

/-!
Verification of the circuit diagram assembler of this repository
(class AdvancedCircuitAssembler, file src/advancedCircuitAssembler.ts).

The TypeScript source is shallowly embedded below:

* JavaScript numbers are modelled by the rationals ℚ (the arithmetic the
  assembler performs on coordinates is exact on the inputs of interest;
  the one use of Math.sqrt is modelled by Rat.sqrt, and no verified
  property depends on the value it produces).
* JavaScript strings are modelled by Lean String, and the JS string
  methods used by the source (toLowerCase, includes, trim, split,
  replace) are re-implemented on List Char by structural recursion so
  that every definition is executable and kernel-reducible.  The
  lowercasing is the ASCII one of Char.toLower; the source only ever
  compares ASCII keywords, so this is faithful on the relevant alphabet.
* A JS Map is modelled by an association list in insertion order, which
  is exactly the iteration order of a JS Map.  The pin tables and
  layouts built by the source never insert the same key twice.
-/

namespace CircuitAssembler

/-! ## String toolkit: kernel-computable embeddings of the JS string methods -/

/-- Is the first list a (case-sensitive) prefix of the second? -/
def startsList : List Char → List Char → Bool
  | [], _ => true
  | _ :: _, [] => false
  | p :: ps, c :: cs => (p == c) && startsList ps cs

/-- Is the first list a case-insensitive (ASCII) prefix of the second? -/
def ciStarts : List Char → List Char → Bool
  | [], _ => true
  | _ :: _, [] => false
  | p :: ps, c :: cs => (p.toLower == c.toLower) && ciStarts ps cs

/-- Does the second list contain the first as a contiguous sublist?
JS semantics: every string contains the empty string. -/
def containsList (pat : List Char) : List Char → Bool
  | [] => pat.isEmpty
  | c :: rest => startsList pat (c :: rest) || containsList pat rest

/-- JS `s.includes(sub)`. -/
def includesS (s sub : String) : Bool := containsList sub.data s.data

/-- JS `s.toLowerCase()` (ASCII). -/
def lowerS (s : String) : String := ⟨s.data.map Char.toLower⟩

/-- JS `s.trim()` (ASCII whitespace). -/
def trimS (s : String) : String :=
  ⟨((s.data.dropWhile Char.isWhitespace).reverse.dropWhile Char.isWhitespace).reverse⟩

/-- Auxiliary splitter for `splitOnCharS`; accumulates the current field. -/
def splitOnCharAux (sep : Char) : List Char → List Char → List String
  | [], acc => [⟨acc.reverse⟩]
  | c :: rest, acc =>
    if c == sep then ⟨acc.reverse⟩ :: splitOnCharAux sep rest []
    else splitOnCharAux sep rest (c :: acc)

/-- JS `s.split(sep)` for a one-character separator (the source splits on
the single character arrow). -/
def splitOnCharS (sep : Char) (s : String) : List String := splitOnCharAux sep s.data []

/-- JS `s.startsWith(p)`. -/
def startsS (s p : String) : Bool := startsList p.data s.data

/-- JS `s.endsWith(p)`. -/
def endsS (s p : String) : Bool := startsList p.data.reverse s.data.reverse

/-- First maximal run of decimal digits in the list, if any:
JS `s.match(a digit-run pattern)` returning the matched text. -/
def firstDigitRun : List Char → Option (List Char)
  | [] => none
  | c :: rest =>
    if c.isDigit then some (c :: rest.takeWhile Char.isDigit)
    else firstDigitRun rest

/-- Does the list contain the given letter immediately followed by a digit?
This is JS `s.match(letter-then-digits)` tested for success: the pattern
letter `\d+` succeeds iff some occurrence of the letter is followed by at
least one digit. -/
def hasCharDigit (letter : Char) : List Char → Bool
  | a :: b :: rest => (a == letter && b.isDigit) || hasCharDigit letter (b :: rest)
  | _ => false

/-- JS `s.replace(/[()]/g, empty)`: remove all parentheses. -/
def stripParens (s : String) : String :=
  ⟨s.data.filter (fun c => !(c == '(') && !(c == ')'))⟩

/-- JS `s.split(one space)[0]`: the characters before the first space. -/
def firstWordS (s : String) : String := ⟨s.data.takeWhile (fun c => !(c == ' '))⟩

/-- Fuelled scanner for global replace-by-empty of a literal pattern,
optionally case-insensitive (`ci`), optionally also consuming the greedy
run of whitespace after each match (`ws`, modelling a trailing greedy
whitespace quantifier in the source regexes).  Each step consumes at
least one input character, so fuel = input length never runs out; the
fuel-exhausted arm returns the input unchanged and is unreachable. -/
def removeAllAux (pat : List Char) (ci ws : Bool) : Nat → List Char → List Char
  | _, [] => []
  | 0, l => l
  | fuel + 1, c :: rest =>
    if !pat.isEmpty && (if ci then ciStarts pat (c :: rest) else startsList pat (c :: rest)) then
      let after := (c :: rest).drop pat.length
      removeAllAux pat ci ws fuel (if ws then after.dropWhile Char.isWhitespace else after)
    else
      c :: removeAllAux pat ci ws fuel rest

/-- JS `s.replace(new RegExp(pat, flags), empty)` for a literal pattern,
see `removeAllAux`.  An empty pattern leaves the string unchanged, like
the JS empty-regex replace with an empty replacement. -/
def removeAllS (s pat : String) (ci ws : Bool) : String :=
  ⟨removeAllAux pat.data ci ws s.data.length s.data⟩

/-- JS `s.replace(single-char-regex/g, rep)`. -/
def replaceAllChar (c : Char) (rep : String) (s : String) : String :=
  ⟨s.data.foldr (fun ch acc => if ch == c then rep.data ++ acc else ch :: acc) []⟩

/-- The XML escaping chain applied by `drawWire` (to the wire label) and by
`embedComponentSVG` (to the component name), in exactly the source order:
ampersand, capital omega, less-than, greater-than, double quote, single
quote (character code 39). -/
def escapeXml (s : String) : String :=
  replaceAllChar (Char.ofNat 39) "&apos;"
    (replaceAllChar '"' "&quot;"
      (replaceAllChar '>' "&gt;"
        (replaceAllChar '<' "&lt;"
          (replaceAllChar 'Ω' "&#937;"
            (replaceAllChar '&' "&amp;" s)))))

/-- Collapse every maximal run of whitespace to one underscore
(JS `s.replace(whitespace-run/g, underscore)`); the flag records whether
the previous character was whitespace. -/
def collapseWSu : Bool → List Char → List Char
  | _, [] => []
  | prevWS, c :: rest =>
    if c.isWhitespace then
      (if prevWS then collapseWSu true rest else '_' :: collapseWSu true rest)
    else c :: collapseWSu false rest

/-- The id sanitiser of `embedComponentSVG`: whitespace runs to underscores,
then keep only word characters. -/
def cleanIdOf (s : String) : String :=
  ⟨(collapseWSu false s.data).filter (fun c => c.isAlphanum || c == '_')⟩

/-- Split a list at its first greater-than sign: returns the segment before
it and the remainder after it, if the sign occurs. -/
def splitAtGt : List Char → Option (List Char × List Char)
  | [] => none
  | c :: rest =>
    if c == '>' then some ([], rest)
    else
      match splitAtGt rest with
      | some (seg, rem) => some (c :: seg, rem)
      | none => none

/-- Fuelled scanner for the tag-stripping regexes of `embedComponentSVG`:
a match is the literal `openLit`, then characters other than the
greater-than sign, then that sign (when `needQm` is set the sign must be
immediately preceded by a question mark, modelling the XML-declaration
pattern).  Matches are removed; the scan is global and case-sensitive,
like the source regexes.  Fuel = input length suffices, as in
`removeAllAux`. -/
def stripTagAux (openLit : List Char) (needQm : Bool) : Nat → List Char → List Char
  | _, [] => []
  | 0, l => l
  | fuel + 1, c :: rest =>
    if startsList openLit (c :: rest) then
      match splitAtGt ((c :: rest).drop openLit.length) with
      | some (seg, rem) =>
        if !needQm || seg.getLast? == some '?' then stripTagAux openLit needQm fuel rem
        else c :: stripTagAux openLit needQm fuel rest
      | none => c :: stripTagAux openLit needQm fuel rest
    else c :: stripTagAux openLit needQm fuel rest

/-- One tag-stripping pass, see `stripTagAux`. -/
def stripTagS (s openLit : String) (needQm : Bool) : String :=
  ⟨stripTagAux openLit.data needQm s.data.length s.data⟩

/-- The wrapper-stripping chain of `embedComponentSVG` (source lines
795-799): remove the XML declaration, the DOCTYPE, every opening svg tag,
every closing svg tag, then trim. -/
def stripSvgWrapper (s : String) : String :=
  trimS (removeAllS (stripTagS (stripTagS (stripTagS s "<?xml" true) "<!DOCTYPE" false)
    "<svg" false) "</svg>" false false)

/-- Rendering of a number into the markup.  The source interpolates JS
numbers (printed in decimal); integral values print identically here, and
no verified property depends on the digit rendering of a non-integral
value. -/
def numS (q : ℚ) : String :=
  if q.den = 1 then Int.repr q.num else Int.repr q.num ++ "/" ++ Nat.repr q.den

/-! ## Data model (interfaces ComponentSVGData, ConnectionWire and the
layout records built by layoutComponents) -/

/-- A component-local or absolute pin coordinate. -/
structure Pt where
  x : ℚ
  y : ℚ
deriving DecidableEq, Repr

/-- Interface ComponentSVGData of the source (svg markup, intrinsic
dimensions after parsing, pin table in insertion order). -/
structure ComponentSVGData where
  name : String
  svgContent : String
  width : ℚ
  height : ℚ
  pins : List (String × Pt)
deriving DecidableEq, Repr

/-- One value of the layout map built by `layoutComponents`: the component
data, its canvas position, and its pins translated to absolute
coordinates. -/
structure LayoutEntry where
  component : ComponentSVGData
  x : ℚ
  y : ℚ
  absolutePins : List (String × Pt)
deriving DecidableEq, Repr

/-- The result record of `findConnectionPoint`. -/
structure ConnPoint where
  component : String
  pin : String
  x : ℚ
  y : ℚ
deriving DecidableEq, Repr

/-- Interface ConnectionWire of the source.  The source field named with
the reserved word from is called `fromPt` here, and its partner `toPt`. -/
structure ConnectionWire where
  fromPt : ConnPoint
  toPt : ConnPoint
  color : String
  label : String
deriving DecidableEq, Repr

/-! ## Pin tables, scaling, layout arithmetic -/

/-- Method getComponentPinPositions (identical in both revisions of the
assembler): classify the component by lowercased-name keyword, first
match wins, and return its pin table in insertion order. -/
def getComponentPinPositions (componentName : String) (width height : ℚ) :
    List (String × Pt) :=
  let name := lowerS componentName
  if includesS name "arduino" then
    [("VIN", ⟨0, height * 0.2⟩), ("GND", ⟨0, height * 0.4⟩), ("5V", ⟨0, height * 0.3⟩),
     ("3.3V", ⟨0, height * 0.35⟩), ("D13", ⟨width, height * 0.3⟩), ("D12", ⟨width, height * 0.4⟩),
     ("D11", ⟨width, height * 0.5⟩), ("D10", ⟨width, height * 0.6⟩), ("A0", ⟨width, height * 0.7⟩),
     ("A1", ⟨width, height * 0.8⟩)]
  else if includesS name "led" then
    [("Anode", ⟨width / 2, 0⟩), ("+", ⟨width / 2, 0⟩),
     ("Cathode", ⟨width / 2, height⟩), ("-", ⟨width / 2, height⟩)]
  else if includesS name "resistor" then
    [("A", ⟨0, height / 2⟩), ("B", ⟨width, height / 2⟩),
     ("1", ⟨0, height / 2⟩), ("2", ⟨width, height / 2⟩)]
  else if includesS name "battery" then
    [("+", ⟨width / 2, 0⟩), ("positive", ⟨width / 2, 0⟩),
     ("-", ⟨width / 2, height⟩), ("negative", ⟨width / 2, height⟩)]
  else if includesS name "hc-sr04" || includesS name "ultrasonic" then
    [("VCC", ⟨0, height * 0.2⟩), ("TRIG", ⟨0, height * 0.4⟩),
     ("ECHO", ⟨0, height * 0.6⟩), ("GND", ⟨0, height * 0.8⟩)]
  else if includesS name "switch" || includesS name "button" then
    [("1", ⟨0, height / 2⟩), ("2", ⟨width, height / 2⟩),
     ("A", ⟨0, height / 2⟩), ("B", ⟨width, height / 2⟩)]
  else
    [("TOP", ⟨width / 2, 0⟩), ("BOTTOM", ⟨width / 2, height⟩),
     ("LEFT", ⟨0, height / 2⟩), ("RIGHT", ⟨width, height / 2⟩)]

/-- The uniform scale factor computed by `parseSVG` when a component is
oversized: min of 200/width (if width exceeds 200, else 1) and 200/height
(if height exceeds 200, else 1). -/
def scaleFor (w h : ℚ) : ℚ :=
  min (if 200 < w then 200 / w else 1) (if 200 < h then 200 / h else 1)

/-- Method parseSVG, lines 209-246 of the source: given the intrinsic
width and height already extracted from the artwork markup (the regex
extraction of viewBox or width/height attributes, with default 150, is
the elided first half of the method; this definition takes its result as
arguments), build the pin table and normalise oversized components by
multiplying both dimensions and every pin coordinate by `scaleFor`.
Returns (width, height, pins). -/
def parseSVGData (componentName : String) (w h : ℚ) : ℚ × ℚ × List (String × Pt) :=
  let pins := getComponentPinPositions componentName w h
  if 200 < w ∨ 200 < h then
    let scale := scaleFor w h
    (w * scale, h * scale, pins.map fun q => (q.1, ⟨q.2.x * scale, q.2.y * scale⟩))
  else (w, h, pins)

/-- Method calculateAbsolutePins: translate every pin of a table by the
component placement offset. -/
def calculateAbsolutePins (pins : List (String × Pt)) (offsetX offsetY : ℚ) :
    List (String × Pt) :=
  pins.map fun q => (q.1, ⟨offsetX + q.2.x, offsetY + q.2.y⟩)

/-! ## Connection resolution (findConnectionPoint and helpers) -/

/-- The fixed vocabulary of strategy 2 of `findConnectionPoint`. -/
def significantWords : List String :=
  ["arduino", "nano", "led", "resistor", "battery", "sensor", "hc-sr04", "ultrasonic"]

/-- The three component-matching strategies of `findConnectionPoint`
(source lines 475-497), combined by disjunction as in the source:
(1) the lowercased description contains the lowercased component name;
(2) some significant word occurs in both;
(3) after lowercasing and removing parentheses, either side contains the
first word of the other. -/
def componentMatches (pointStr componentName : String) : Bool :=
  includesS (lowerS pointStr) (lowerS componentName)
  || significantWords.any (fun word =>
       includesS (lowerS pointStr) word && includesS (lowerS componentName) word)
  || (includesS (stripParens (lowerS pointStr)) (firstWordS (stripParens (lowerS componentName)))
      || includesS (stripParens (lowerS componentName)) (firstWordS (stripParens (lowerS pointStr))))

/-- The pin-name extraction of `findConnectionPoint` (source lines
503-513): remove the component name, then the hardcoded qualifier words,
trimming after each step.  The dynamic regex built from the component
name is modelled as case-insensitive literal removal of the name with its
parentheses deleted: in a regex, parentheses only group, so the pattern
compiled from a name such as a parenthesised colour variant matches
exactly the name text without its parentheses (faithful whenever the
component name contains no regex metacharacters other than parentheses,
which holds for every label the assembler is given).  The qualifier
regexes each end in a greedy whitespace quantifier, hence the `ws`
flag. -/
def extractPinName (componentName pointStr : String) : String :=
  let p := trimS (removeAllS pointStr (stripParens componentName) true false)
  let p := trimS (removeAllS p "arduino" true true)
  let p := trimS (removeAllS p "nano" true true)
  let p := trimS (removeAllS p "led" true true)
  let p := trimS (removeAllS p "(red)" true true)
  let p := trimS (removeAllS p "(green)" true true)
  let p := trimS (removeAllS p "red" true true)
  let p := trimS (removeAllS p "green" true true)
  p

/-- First pin matching the extracted name case-insensitively by equality
or substring in either direction (source lines 520-532). -/
def findPinExact (pinName : String) : List (String × Pt) → Option (String × Pt)
  | [] => none
  | (pin, pos) :: rest =>
    if lowerS pinName == lowerS pin
        || includesS (lowerS pinName) (lowerS pin)
        || includesS (lowerS pin) (lowerS pinName) then some (pin, pos)
    else findPinExact pinName rest

/-- First pin whose first embedded digit run equals that of the extracted
name (source lines 535-547). -/
def findPinByNumber (pinName : String) : List (String × Pt) → Option (String × Pt)
  | [] => none
  | (pin, pos) :: rest =>
    match firstDigitRun pin.data, firstDigitRun pinName.data with
    | some pd, some sd =>
      if pd == sd then some (pin, pos) else findPinByNumber pinName rest
    | _, _ => findPinByNumber pinName rest

/-- Pin resolution within one matched component (source lines 503-559):
exact/substring match, then digit-run match, then fall back to the first
pin of the table; `none` only when the table is empty (in which case the
source loop falls through to the next component). -/
def resolveWithin (pointStr componentName : String) (absolutePins : List (String × Pt)) :
    Option ConnPoint :=
  match findPinExact (extractPinName componentName pointStr) absolutePins with
  | some (pin, pos) => some ⟨componentName, pin, pos.x, pos.y⟩
  | none =>
    match findPinByNumber (extractPinName componentName pointStr) absolutePins with
    | some (pin, pos) => some ⟨componentName, pin, pos.x, pos.y⟩
    | none =>
      match absolutePins with
      | (pin, pos) :: _ => some ⟨componentName, pin, pos.x, pos.y⟩
      | [] => none

/-- Method findConnectionPoint (source lines 461-565): iterate the layout
in insertion order; on the first component that matches and yields a pin,
return it; otherwise null. -/
def findConnectionPoint (pointStr : String) : List (String × LayoutEntry) → Option ConnPoint
  | [] => none
  | (componentName, entry) :: rest =>
    if componentMatches pointStr componentName then
      match resolveWithin pointStr componentName entry.absolutePins with
      | some r => some r
      | none => findConnectionPoint pointStr rest
    else findConnectionPoint pointStr rest

/-! ## Wire colour classification -/

/-- Method getWireColor (identical in both revisions): scan the lowercased
connection text for keyword groups, first match wins. -/
def getWireColor (connection : String) : String :=
  let conn := lowerS connection
  if includesS conn "vin" || includesS conn "5v" || includesS conn "3.3v" ||
      includesS conn "vcc" || includesS conn "power" || includesS conn "+" then
    "#FF0000"
  else if includesS conn "gnd" || includesS conn "ground" || includesS conn "-" then
    "#000000"
  else if includesS conn "signal" || includesS conn "trig" || includesS conn "echo" then
    "#FFFF00"
  else if hasCharDigit 'd' conn.data then "#00FF00"
  else if hasCharDigit 'a' conn.data then "#0088FF"
  else "#888888"

/-- Modelled from the spec: the colour classification exactly as the spec
and claim word it (power keywords to red, else ground keywords to black,
else signal keywords to yellow, else a digital-pin pattern to green, else
an analog-pin pattern to blue, else gray), used to compare the source
function against the claimed rule order. -/
def wireColorClaimed (connection : String) : String :=
  let conn := lowerS connection
  if includesS conn "vin" || includesS conn "5v" || includesS conn "3.3v" ||
      includesS conn "vcc" || includesS conn "power" || includesS conn "+" then
    "#FF0000"
  else if includesS conn "gnd" || includesS conn "ground" || includesS conn "-" then
    "#000000"
  else if includesS conn "signal" || includesS conn "trig" || includesS conn "echo" then
    "#FFFF00"
  else if hasCharDigit 'd' conn.data then "#00FF00"
  else if hasCharDigit 'a' conn.data then "#0088FF"
  else "#888888"

/-! ## Connection parsing -/

/-- The body of the loop of `parseConnections` (source lines 403-451) for
one connection line: skip lines containing a control-flow keyword, split
on the arrow and trim, require exactly two parts, resolve both endpoints,
and build the wire.  Total: a skipped line yields `none`, never an
error. -/
def parseOneConnection (layout : List (String × LayoutEntry)) (connection : String) :
    Option ConnectionWire :=
  if includesS (lowerS connection) "upload" || includesS (lowerS connection) "code"
      || includesS (lowerS connection) "program" then none
  else
    match (splitOnCharS '→' connection).map trimS with
    | [a, b] =>
      match findConnectionPoint a layout, findConnectionPoint b layout with
      | some f, some t => some ⟨f, t, getWireColor connection, connection⟩
      | _, _ => none
    | _ => none

/-- Method parseConnections (source lines 394-456): fold the per-line
parser over the input lines, keeping the wires that resolve. -/
def parseConnections (connections : List String) (layout : List (String × LayoutEntry)) :
    List ConnectionWire :=
  connections.filterMap (parseOneConnection layout)

/-! ## Renderer (drawWire, embedComponentSVG, assembleFinalSVG) -/

/-- Method drawWire (source lines 713-780): route the wire (gentle curve
when nearly horizontal or nearly vertical, else an orthogonal
three-segment route through the vertical midpoint), escape the label, and
emit the glow/shadow/main paths and the endpoint markers.  The floating
Math.sqrt of the source is modelled by Rat.sqrt; no verified property
depends on the numeric value of the curvature. -/
def drawWire (wire : ConnectionWire) : String :=
  let f := wire.fromPt
  let t := wire.toPt
  let color := wire.color
  let dx := t.x - f.x
  let dy := t.y - f.y
  let distance := Rat.sqrt (dx * dx + dy * dy)
  let path :=
    if |dy| < 50 then
      let curvature := distance * 0.25
      "M " ++ numS f.x ++ " " ++ numS f.y ++ " C " ++ numS (f.x + curvature) ++ " " ++
        numS f.y ++ ", " ++ numS (t.x - curvature) ++ " " ++ numS t.y ++ ", " ++
        numS t.x ++ " " ++ numS t.y
    else if |dx| < 50 then
      let curvature := distance * 0.25
      "M " ++ numS f.x ++ " " ++ numS f.y ++ " C " ++ numS f.x ++ " " ++
        numS (f.y + curvature) ++ ", " ++ numS t.x ++ " " ++ numS (t.y - curvature) ++ ", " ++
        numS t.x ++ " " ++ numS t.y
    else
      let midY := (f.y + t.y) / 2
      "M " ++ numS f.x ++ " " ++ numS f.y ++ " L " ++ numS f.x ++ " " ++ numS midY ++
        " L " ++ numS t.x ++ " " ++ numS midY ++ " L " ++ numS t.x ++ " " ++ numS t.y
  "\n    <!-- Wire: " ++ escapeXml wire.label ++ " -->\n    \n    <!-- Wire glow effect -->\n    <path d=\"" ++ path ++ "\" \n          stroke=\"" ++ color ++ "\" \n          stroke-width=\"8\" \n          fill=\"none\"\n          stroke-linecap=\"round\"\n          opacity=\"0.15\"\n          filter=\"blur(3px)\"/>\n    \n    <!-- Wire shadow -->\n    <path d=\"" ++ path ++ "\" \n          stroke=\"#00000020\" \n          stroke-width=\"5\" \n          fill=\"none\"\n          stroke-linecap=\"round\"\n          transform=\"translate(2, 2)\"/>\n    \n    <!-- Main wire -->\n    <path d=\"" ++ path ++ "\" \n          stroke=\"" ++ color ++ "\" \n          stroke-width=\"4\" \n          fill=\"none\"\n          stroke-linecap=\"round\"\n          stroke-linejoin=\"round\"/>\n    \n    <!-- Connection dots with glow -->\n    <circle cx=\"" ++ numS f.x ++ "\" cy=\"" ++ numS f.y ++ "\" r=\"8\" fill=\"" ++ color ++ "\" opacity=\"0.3\"/>\n    <circle cx=\"" ++ numS f.x ++ "\" cy=\"" ++ numS f.y ++ "\" r=\"5\" fill=\"" ++ color ++ "\" stroke=\"#FFF\" stroke-width=\"2\"/>\n    \n    <circle cx=\"" ++ numS t.x ++ "\" cy=\"" ++ numS t.y ++ "\" r=\"8\" fill=\"" ++ color ++ "\" opacity=\"0.3\"/>\n    <circle cx=\"" ++ numS t.x ++ "\" cy=\"" ++ numS t.y ++ "\" r=\"5\" fill=\"" ++ color ++ "\" stroke=\"#FFF\" stroke-width=\"2\"/>\n"

/-- Method embedComponentSVG (source lines 788-835): strip the artwork of
its outer document wrapper, escape the component name, sanitise the group
id, and emit the translated group.  The scale interpolation of the source
reads a field (originalWidth/originalHeight) that does not exist on the
component record, so in JS it evaluates to NaN and the or-defaulting
yields the constant 1; the emitted text is therefore always
scale(1, 1). -/
def embedComponentSVG (componentName : String) (entry : LayoutEntry) : String :=
  let svgContent := stripSvgWrapper entry.component.svgContent
  let cleanId := cleanIdOf componentName
  "\n  <!-- Component: " ++ escapeXml componentName ++ " -->\n  <g id=\"" ++ cleanId ++
    "\" transform=\"translate(" ++ numS entry.x ++ ", " ++ numS entry.y ++
    ")\">\n    <!-- Component Background (subtle) -->\n    <rect x=\"-5\" y=\"-5\" width=\"" ++
    numS (entry.component.width + 10) ++ "\" height=\"" ++ numS (entry.component.height + 10) ++
    "\" \n          fill=\"#FFFFFF\" stroke=\"#DDD\" stroke-width=\"1\" rx=\"5\" opacity=\"0.5\"/>\n    \n    <!-- Actual Component SVG -->\n   <!-- Actual Component SVG (scaled if needed) -->\n    <g transform=\"scale(1, 1)\">\n      " ++
    svgContent ++ "\n    </g>\n    <!-- Component Label -->\n    <text x=\"" ++
    numS (entry.component.width / 2) ++ "\" y=\"" ++ numS (entry.component.height + 20) ++
    "\" \n          font-size=\"12\" font-family=\"Arial\" font-weight=\"bold\"\n          text-anchor=\"middle\" fill=\"#333\">\n      " ++
    escapeXml componentName ++ "\n    </text>\n  </g>\n"

/-- The maximal right edge over all placements (source lines 602-608),
a fold of max starting at 0. -/
def maxXOf (layout : List (String × LayoutEntry)) : ℚ :=
  layout.foldl (fun m q => max m (q.2.x + q.2.component.width)) 0

/-- The maximal bottom edge over all placements (source lines 602-608). -/
def maxYOf (layout : List (String × LayoutEntry)) : ℚ :=
  layout.foldl (fun m q => max m (q.2.y + q.2.component.height)) 0

/-- Canvas width (source line 611): right edge plus 200 of padding,
capped at 2000. -/
def canvasWidthOf (layout : List (String × LayoutEntry)) : ℚ :=
  min (maxXOf layout + 200) 2000

/-- Canvas height (source line 612): bottom edge plus 250 of padding,
capped at 1500. -/
def canvasHeightOf (layout : List (String × LayoutEntry)) : ℚ :=
  min (maxYOf layout + 250) 1500

/-- The XML declaration and opening svg tag of the document, carrying the
width and height attributes (source lines 614-615). -/
def svgOpenTag (cw ch : ℚ) : String :=
  "<?xml version=\"1.0\" encoding=\"UTF-8\"?>\n<svg width=\"" ++ numS cw ++
    "\" height=\"" ++ numS ch ++ "\" xmlns=\"http://www.w3.org/2000/svg\">"

/-- Background and grid-pattern markup of the header template (source
lines 616-628). -/
def svgBackgroundGrid : String :=
  "\n  \n  <!-- Background -->\n  <rect width=\"100%\" height=\"100%\" fill=\"#FAFAFA\"/>\n  \n  <!-- Grid Pattern -->\n  <defs>\n    <pattern id=\"grid\" width=\"20\" height=\"20\" patternUnits=\"userSpaceOnUse\">\n      <path d=\"M 20 0 L 0 0 0 20\" fill=\"none\" stroke=\"#E0E0E0\" stroke-width=\"0.5\"/>\n    </pattern>\n  </defs>\n  <rect width=\"100%\" height=\"100%\" fill=\"url(#grid)\"/>\n  \n  <!-- Title -->\n  "

/-- Title bar markup up to the point where the circuit name is
interpolated verbatim (source lines 629-632). -/
def svgTitleOpen (cw : ℚ) : String :=
  "<rect x=\"10\" y=\"10\" width=\"" ++ numS (cw - 20) ++
    "\" height=\"60\" fill=\"#FFFFFF\" stroke=\"#333\" stroke-width=\"2\" rx=\"10\"/>\n  <text x=\"" ++
    numS (cw / 2) ++ "\" y=\"45\" font-size=\"28\" font-family=\"Arial, sans-serif\" \n  font-weight=\"bold\" text-anchor=\"middle\" fill=\"#333\">\n  "

/-- Markup between the circuit name and the components (source lines
633-637). -/
def svgTitleClose : String :=
  "\n  </text>\n  \n  <!-- Components Layer -->\n  <g id=\"components\">\n  "

/-- Markup between the components layer and the wires layer (source lines
644-648). -/
def svgWiresOpen : String :=
  "  </g>\n  \n  <!-- Wires Layer -->\n  <g id=\"wires\">\n  "

/-- Markup between the wires layer and the pin labels (source lines
655-659). -/
def svgPinLabelsOpen : String :=
  "  </g>\n  \n  <!-- Pin Labels -->\n  <g id=\"pin-labels\">\n"

/-- One debug pin marker and its label (source lines 664-666); the pin
name is interpolated verbatim. -/
def pinLabelOne (p : String × Pt) : String :=
  "    <circle cx=\"" ++ numS p.2.x ++ "\" cy=\"" ++ numS p.2.y ++
    "\" r=\"4\" fill=\"#FF6B6B\" stroke=\"#FFF\" stroke-width=\"1.5\"/>\n    <text x=\"" ++
    numS (p.2.x + 10) ++ "\" y=\"" ++ numS (p.2.y - 5) ++
    "\" font-size=\"10\" fill=\"#666\">" ++ p.1 ++ "</text>\n"

/-- Legend and footer markup (source lines 670-702). -/
def svgLegendFooter (cw ch : ℚ) : String :=
  "  </g>\n  \n  <!-- Legend -->\n  <g id=\"legend\" transform=\"translate(20, " ++
    numS (ch - 120) ++
    ")\">\n    <rect x=\"-10\" y=\"-10\" width=\"400\" height=\"110\" fill=\"#FFFFFF\" stroke=\"#333\" stroke-width=\"2\" rx=\"5\"/>\n    <text x=\"0\" y=\"5\" font-size=\"14\" font-weight=\"bold\" fill=\"#333\">Wire Color Guide:</text>\n    \n    <line x1=\"0\" y1=\"25\" x2=\"50\" y2=\"25\" stroke=\"#FF0000\" stroke-width=\"4\"/>\n    <text x=\"60\" y=\"30\" font-size=\"12\" fill=\"#333\">Power (VIN, 5V, VCC)</text>\n    \n    <line x1=\"0\" y1=\"45\" x2=\"50\" y2=\"45\" stroke=\"#000000\" stroke-width=\"4\"/>\n    <text x=\"60\" y=\"50\" font-size=\"12\" fill=\"#333\">Ground (GND)</text>\n    \n    <line x1=\"200\" y1=\"25\" x2=\"250\" y2=\"25\" stroke=\"#00FF00\" stroke-width=\"4\"/>\n    <text x=\"260\" y=\"30\" font-size=\"12\" fill=\"#333\">Digital Pins</text>\n    \n    <line x1=\"200\" y1=\"45\" x2=\"250\" y2=\"45\" stroke=\"#0088FF\" stroke-width=\"4\"/>\n    <text x=\"260\" y=\"50\" font-size=\"12\" fill=\"#333\">Analog Pins</text>\n    \n    <line x1=\"0\" y1=\"65\" x2=\"50\" y2=\"65\" stroke=\"#FFFF00\" stroke-width=\"4\"/>\n    <text x=\"60\" y=\"70\" font-size=\"12\" fill=\"#333\">Signal</text>\n    \n    <line x1=\"200\" y1=\"65\" x2=\"250\" y2=\"65\" stroke=\"#888888\" stroke-width=\"4\"/>\n    <text x=\"260\" y=\"70\" font-size=\"12\" fill=\"#333\">Other</text>\n  </g>\n  \n  <!-- Footer -->\n  <text x=\"" ++
    numS (cw / 2) ++ "\" y=\"" ++ numS (ch - 10) ++
    "\" font-size=\"10\" \n        font-family=\"Arial\" text-anchor=\"middle\" fill=\"#999\">\n    Generated by Advanced Circuit Assembler • Using Real Component SVGs\n  </text>\n  \n</svg>"

/-- Everything the document appends after the verbatim circuit name:
the rest of the title bar, the components layer, the wires layer, the
debug pin labels, and the legend and footer. -/
def svgAfterTitle (layout : List (String × LayoutEntry)) (wires : List ConnectionWire)
    (cw ch : ℚ) : String :=
  svgTitleClose ++
    layout.foldl (fun acc q => acc ++ embedComponentSVG q.1 q.2) "" ++
    svgWiresOpen ++
    wires.foldl (fun acc w => acc ++ drawWire w) "" ++
    svgPinLabelsOpen ++
    layout.foldl (fun acc q =>
      acc ++ q.2.absolutePins.foldl (fun acc2 p => acc2 ++ pinLabelOne p) "") "" ++
    svgLegendFooter cw ch

/-- Method assembleFinalSVG (source lines 596-705): compute the canvas
size, then emit the document by concatenation in source order.  The
circuit name is interpolated into the title text verbatim (source line
632 applies no escaping to it). -/
def assembleFinalSVG (circuitName : String) (layout : List (String × LayoutEntry))
    (wires : List ConnectionWire) : String :=
  let cw := canvasWidthOf layout
  let ch := canvasHeightOf layout
  svgOpenTag cw ch ++ (svgBackgroundGrid ++ svgTitleOpen cw) ++ circuitName ++
    svgAfterTitle layout wires cw ch

/-! ## General lemmas about the string toolkit -/

theorem strData_append (a b : String) : (a ++ b).data = a.data ++ b.data := by
  cases a
  cases b
  rfl

theorem strApp_assoc (a b c : String) : a ++ b ++ c = a ++ (b ++ c) := by
  apply String.ext
  simp [strData_append]

theorem startsList_refl (l : List Char) : startsList l l = true := by
  induction l with
  | nil => rfl
  | cons c cs ih => simp [startsList, ih]

theorem startsList_mono (p l m : List Char) (h : startsList p l = true) :
    startsList p (l ++ m) = true := by
  induction p generalizing l with
  | nil => rfl
  | cons x xs ih =>
    cases l with
    | nil => simp [startsList] at h
    | cons c cs =>
      simp only [startsList, Bool.and_eq_true] at h ⊢
      exact ⟨h.1, ih cs h.2⟩

theorem containsList_nil_pat (l : List Char) : containsList [] l = true := by
  cases l with
  | nil => rfl
  | cons c cs => simp [containsList, startsList]

theorem containsList_of_starts (p l : List Char) (h : startsList p l = true) :
    containsList p l = true := by
  cases l with
  | nil =>
    cases p with
    | nil => rfl
    | cons x xs => simp [startsList] at h
  | cons c cs => simp [containsList, h]

theorem containsList_append_left (p a b : List Char) (h : containsList p a = true) :
    containsList p (a ++ b) = true := by
  induction a with
  | nil =>
    simp only [containsList] at h
    simp only [List.isEmpty_iff] at h
    subst h
    exact containsList_nil_pat b
  | cons c cs ih =>
    simp only [containsList, Bool.or_eq_true] at h
    rcases h with h | h
    · simpa [containsList] using Or.inl (startsList_mono p (c :: cs) b h)
    · simp [containsList, ih h]

theorem containsList_append_right (p a b : List Char) (h : containsList p b = true) :
    containsList p (a ++ b) = true := by
  induction a with
  | nil => simpa using h
  | cons c cs ih => simp [containsList, ih]

theorem containsList_self (p : List Char) : containsList p p = true :=
  containsList_of_starts p p (startsList_refl p)

theorem includesS_appendLeft (a b p : String) (h : includesS a p = true) :
    includesS (a ++ b) p = true := by
  simpa [includesS, strData_append] using containsList_append_left p.data a.data b.data h

theorem includesS_appendRight (a b p : String) (h : includesS b p = true) :
    includesS (a ++ b) p = true := by
  simpa [includesS, strData_append] using containsList_append_right p.data a.data b.data h

theorem includesS_self (p : String) : includesS p p = true := containsList_self p.data

theorem includesS_mid (a b c : String) : includesS (a ++ b ++ c) b = true :=
  includesS_appendLeft (a ++ b) c b (includesS_appendRight a b b (includesS_self b))

theorem startsS_appendLeft (a b p : String) (h : startsS a p = true) :
    startsS (a ++ b) p = true := by
  simpa [startsS, strData_append] using startsList_mono p.data a.data b.data h

theorem endsS_appendRight (a b p : String) (h : endsS b p = true) :
    endsS (a ++ b) p = true := by
  simp only [endsS, strData_append, List.reverse_append] at h ⊢
  exact startsList_mono p.data.reverse b.data.reverse a.data.reverse h

/-! ## C2: wire colour classification priority -/

/-- C2: getWireColor classifies by first-match-wins keyword priority
(power to red, else ground to black, else signal to yellow, else a
digital-pin pattern to green, else an analog-pin pattern to blue, else
gray): the source function coincides with the classification exactly as
the spec words it, and in particular every input containing a ground
keyword and a digital-pin pattern but no power keyword is coloured the
ground black, not the digital green. -/
theorem getWireColor_priority (s : String) :
    getWireColor s = wireColorClaimed s ∧
    ((includesS (lowerS s) "gnd" || includesS (lowerS s) "ground" ||
        includesS (lowerS s) "-") = true →
      hasCharDigit 'd' (lowerS s).data = true →
      (includesS (lowerS s) "vin" || includesS (lowerS s) "5v" ||
        includesS (lowerS s) "3.3v" || includesS (lowerS s) "vcc" ||
        includesS (lowerS s) "power" || includesS (lowerS s) "+") = false →
      getWireColor s = "#000000") := by
  refine ⟨rfl, fun hg _ hp => ?_⟩
  simp only [getWireColor]
  simp [hp, hg]

/-- Witness for C2 at the input named by the claim: the line contains the
ground dash and the digital pin pattern, no power keyword, and is
coloured black. -/
theorem getWireColor_priority_witness :
    getWireColor "Arduino D13 → Battery -" = "#000000" :=
  (getWireColor_priority "Arduino D13 → Battery -").2 (by decide) (by decide) (by decide)

/-! ## C4: pin table completeness -/

/-- C4: for every component name and all nonnegative dimensions,
getComponentPinPositions returns a non-empty pin map whose coordinates
all lie within the component box; this covers the six recognized classes
and the generic fallback, since the name is universally quantified. -/
theorem getComponentPinPositions_bounds (componentName : String) (w h : ℚ)
    (hw : 0 ≤ w) (hh : 0 ≤ h) :
    getComponentPinPositions componentName w h ≠ [] ∧
    ∀ q ∈ getComponentPinPositions componentName w h,
      0 ≤ q.2.x ∧ q.2.x ≤ w ∧ 0 ≤ q.2.y ∧ q.2.y ≤ h := by
  simp only [getComponentPinPositions]
  split_ifs <;>
  · refine ⟨by simp, ?_⟩
    intro q hq
    fin_cases hq <;> refine ⟨?_, ?_, ?_, ?_⟩ <;> dsimp only <;> linarith

/-- Witness for C4: an Arduino-class name with a concrete box. -/
theorem getComponentPinPositions_bounds_witness :
    (0:ℚ) ≤ 100 ∧ (0:ℚ) ≤ 50 ∧
    (getComponentPinPositions "Arduino Nano" 100 50 ≠ [] ∧
      ∀ q ∈ getComponentPinPositions "Arduino Nano" 100 50,
        0 ≤ q.2.x ∧ q.2.x ≤ 100 ∧ 0 ≤ q.2.y ∧ q.2.y ≤ 50) :=
  ⟨by decide, by decide,
    getComponentPinPositions_bounds "Arduino Nano" 100 50 (by decide) (by decide)⟩

/-! ## C3: scaling invariant of parseSVG -/

theorem scaleFor_pos (w h : ℚ) : 0 < scaleFor w h := by
  unfold scaleFor
  have h1 : (0:ℚ) < (if 200 < w then 200 / w else 1) := by
    split_ifs with hw
    · exact div_pos (by norm_num) (lt_trans (by norm_num) hw)
    · norm_num
  have h2 : (0:ℚ) < (if 200 < h then 200 / h else 1) := by
    split_ifs with hh
    · exact div_pos (by norm_num) (lt_trans (by norm_num) hh)
    · norm_num
  exact lt_min h1 h2

theorem mul_scaleFor_le_left (w h : ℚ) : w * scaleFor w h ≤ 200 ∨ w ≤ 200 := by
  by_cases hw2 : 200 < w
  · left
    have hwpos : (0:ℚ) < w := lt_trans (by norm_num) hw2
    have hle : scaleFor w h ≤ 200 / w := by
      unfold scaleFor
      rw [if_pos hw2]
      exact min_le_left _ _
    calc w * scaleFor w h ≤ w * (200 / w) := mul_le_mul_of_nonneg_left hle (le_of_lt hwpos)
    _ = 200 := by field_simp
  · right
    exact le_of_not_lt hw2

theorem mul_scaleFor_le_right (w h : ℚ) : h * scaleFor w h ≤ 200 ∨ h ≤ 200 := by
  by_cases hh2 : 200 < h
  · left
    have hhpos : (0:ℚ) < h := lt_trans (by norm_num) hh2
    have hle : scaleFor w h ≤ 200 / h := by
      unfold scaleFor
      rw [if_pos hh2]
      exact min_le_right _ _
    calc h * scaleFor w h ≤ h * (200 / h) := mul_le_mul_of_nonneg_left hle (le_of_lt hhpos)
    _ = 200 := by field_simp
  · right
    exact le_of_not_lt hh2

theorem scaleFor_le_one_of_wide (w h : ℚ) (hw2 : ¬ 200 < w) : scaleFor w h ≤ 1 := by
  unfold scaleFor
  rw [if_neg hw2]
  exact min_le_left _ _

theorem scaleFor_le_one_of_tall (w h : ℚ) (hh2 : ¬ 200 < h) : scaleFor w h ≤ 1 := by
  unfold scaleFor
  rw [if_neg hh2]
  exact min_le_right _ _

/-- C3: when a parsed component is oversized in either dimension, both
returned dimensions are the originals multiplied by the single uniform
factor `scaleFor`, both are at most 200, every pin coordinate is
multiplied by the same factor, and dividing a scaled pin coordinate by
the factor recovers the original coordinate exactly (the rational
embedding makes the floating tolerance exact); components within the
bound are returned unscaled. -/
theorem parseSVG_scaling (componentName : String) (w h : ℚ) (hw : 0 ≤ w) (hh : 0 ≤ h) :
    ((200 < w ∨ 200 < h) →
      (parseSVGData componentName w h).1 = w * scaleFor w h ∧
      (parseSVGData componentName w h).2.1 = h * scaleFor w h ∧
      (parseSVGData componentName w h).1 ≤ 200 ∧
      (parseSVGData componentName w h).2.1 ≤ 200 ∧
      (parseSVGData componentName w h).2.2 =
        (getComponentPinPositions componentName w h).map
          (fun q => (q.1, ⟨q.2.x * scaleFor w h, q.2.y * scaleFor w h⟩)) ∧
      ∀ q ∈ (parseSVGData componentName w h).2.2,
        ∃ p : Pt, (q.1, p) ∈ getComponentPinPositions componentName w h ∧
          q.2.x / scaleFor w h = p.x ∧ q.2.y / scaleFor w h = p.y) ∧
    (w ≤ 200 → h ≤ 200 →
      parseSVGData componentName w h = (w, h, getComponentPinPositions componentName w h)) := by
  constructor
  · intro hor
    have hs := scaleFor_pos w h
    have hsne : scaleFor w h ≠ 0 := ne_of_gt hs
    have hwle : w * scaleFor w h ≤ 200 := by
      rcases mul_scaleFor_le_left w h with hle | hwsmall
      · exact hle
      · have h1 : scaleFor w h ≤ 1 := scaleFor_le_one_of_wide w h (not_lt.mpr hwsmall)
        calc w * scaleFor w h ≤ w * 1 := mul_le_mul_of_nonneg_left h1 hw
        _ = w := mul_one w
        _ ≤ 200 := hwsmall
    have hhle : h * scaleFor w h ≤ 200 := by
      rcases mul_scaleFor_le_right w h with hle | hhsmall
      · exact hle
      · have h1 : scaleFor w h ≤ 1 := scaleFor_le_one_of_tall w h (not_lt.mpr hhsmall)
        calc h * scaleFor w h ≤ h * 1 := mul_le_mul_of_nonneg_left h1 hh
        _ = h := mul_one h
        _ ≤ 200 := hhsmall
    simp only [parseSVGData, if_pos hor]
    refine ⟨trivial, trivial, hwle, hhle, trivial, ?_⟩
    intro q hq
    rw [List.mem_map] at hq
    obtain ⟨p, hp, rfl⟩ := hq
    exact ⟨p.2, by simpa using hp,
      mul_div_cancel_right₀ p.2.x hsne, mul_div_cancel_right₀ p.2.y hsne⟩
  · intro h1 h2
    have hno : ¬ (200 < w ∨ 200 < h) := by
      push_neg
      exact ⟨h1, h2⟩
    simp [parseSVGData, hno]

/-- Witness for C3: an oversized 400 by 100 component is scaled into the
bound. -/
theorem parseSVG_scaling_witness :
    (0:ℚ) ≤ 400 ∧ (0:ℚ) ≤ 100 ∧ ((200:ℚ) < 400 ∨ (200:ℚ) < 100) ∧
    (parseSVGData "led" 400 100).1 ≤ 200 ∧ (parseSVGData "led" 400 100).2.1 ≤ 200 :=
  ⟨by decide, by decide, Or.inl (by decide),
    ((parseSVG_scaling "led" 400 100 (by decide) (by decide)).1 (Or.inl (by decide))).2.2.1,
    ((parseSVG_scaling "led" 400 100 (by decide) (by decide)).1 (Or.inl (by decide))).2.2.2.1⟩

/-! ## Lemmas about findConnectionPoint -/

theorem resolveWithin_nil (pointStr componentName : String) :
    resolveWithin pointStr componentName [] = none := rfl

theorem findPinExact_mem (pn : String) (l : List (String × Pt)) (pin : String) (pos : Pt)
    (h : findPinExact pn l = some (pin, pos)) : (pin, pos) ∈ l := by
  induction l with
  | nil => simp [findPinExact] at h
  | cons q rest ih =>
    obtain ⟨qp, qpos⟩ := q
    simp only [findPinExact] at h
    split at h
    · injection h with h'
      injection h' with h1 h2
      subst h1
      subst h2
      exact List.mem_cons_self _ _
    · exact List.mem_cons_of_mem _ (ih h)

theorem findPinByNumber_mem (pn : String) (l : List (String × Pt)) (pin : String) (pos : Pt)
    (h : findPinByNumber pn l = some (pin, pos)) : (pin, pos) ∈ l := by
  induction l with
  | nil => simp [findPinByNumber] at h
  | cons q rest ih =>
    obtain ⟨qp, qpos⟩ := q
    simp only [findPinByNumber] at h
    split at h
    · split at h
      · injection h with h'
        injection h' with h1 h2
        subst h1
        subst h2
        exact List.mem_cons_self _ _
      · exact List.mem_cons_of_mem _ (ih h)
    · exact List.mem_cons_of_mem _ (ih h)

theorem resolveWithin_mem (pointStr n : String) (aps : List (String × Pt)) (r : ConnPoint)
    (h : resolveWithin pointStr n aps = some r) :
    r.component = n ∧ (r.pin, Pt.mk r.x r.y) ∈ aps := by
  unfold resolveWithin at h
  cases heq : findPinExact (extractPinName n pointStr) aps with
  | some q =>
    obtain ⟨pin, pos⟩ := q
    simp only [heq] at h
    injection h with h'
    subst h'
    exact ⟨rfl, findPinExact_mem _ _ _ _ heq⟩
  | none =>
    simp only [heq] at h
    cases heq2 : findPinByNumber (extractPinName n pointStr) aps with
    | some q =>
      obtain ⟨pin, pos⟩ := q
      simp only [heq2] at h
      injection h with h'
      subst h'
      exact ⟨rfl, findPinByNumber_mem _ _ _ _ heq2⟩
    | none =>
      simp only [heq2] at h
      cases haps : aps with
      | nil =>
        rw [haps] at h
        simp at h
      | cons q tl =>
        obtain ⟨pin, pos⟩ := q
        rw [haps] at h
        simp only [] at h
        injection h with h'
        subst h'
        exact ⟨rfl, List.mem_cons_self _ _⟩

theorem calculateAbsolutePins_mem (pins : List (String × Pt)) (ox oy : ℚ)
    (pn : String) (q : Pt) (h : (pn, q) ∈ calculateAbsolutePins pins ox oy) :
    ∃ p : Pt, (pn, p) ∈ pins ∧ q.x = ox + p.x ∧ q.y = oy + p.y := by
  unfold calculateAbsolutePins at h
  rw [List.mem_map] at h
  obtain ⟨pp, hpp, heq⟩ := h
  rw [Prod.mk.injEq] at heq
  obtain ⟨h1, h2⟩ := heq
  subst h2
  refine ⟨pp.2, ?_, rfl, rfl⟩
  rw [← h1]
  simpa using hpp

/-! ## C10: soundness of findConnectionPoint -/

/-- C10: every non-null result of findConnectionPoint names a component
present in the layout and a pin present in that component's pin table,
and its coordinates are exactly the placement offset plus the pin's local
coordinate as computed by calculateAbsolutePins; the function never
fabricates a coordinate. -/
theorem findConnectionPoint_sound (pointStr : String)
    (layout : List (String × LayoutEntry)) (r : ConnPoint)
    (hfind : findConnectionPoint pointStr layout = some r)
    (hwf : ∀ q ∈ layout,
      q.2.absolutePins = calculateAbsolutePins q.2.component.pins q.2.x q.2.y) :
    ∃ e : LayoutEntry, (r.component, e) ∈ layout ∧
      ∃ p : Pt, (r.pin, p) ∈ e.component.pins ∧ r.x = e.x + p.x ∧ r.y = e.y + p.y := by
  induction layout with
  | nil => simp [findConnectionPoint] at hfind
  | cons q rest ih =>
    obtain ⟨k, e⟩ := q
    have hwfrest : ∀ q ∈ rest,
        q.2.absolutePins = calculateAbsolutePins q.2.component.pins q.2.x q.2.y :=
      fun q hq => hwf q (List.mem_cons_of_mem _ hq)
    simp only [findConnectionPoint] at hfind
    split at hfind
    · split at hfind
      case _ r' heq =>
        injection hfind with h'
        subst h'
        obtain ⟨hcomp, hmem⟩ := resolveWithin_mem pointStr k e.absolutePins _ heq
        have habs := hwf (k, e) (List.mem_cons_self _ _)
        rw [habs] at hmem
        obtain ⟨p, hp, hx, hy⟩ := calculateAbsolutePins_mem _ _ _ _ _ hmem
        refine ⟨e, ?_, p, hp, hx, hy⟩
        rw [hcomp]
        exact List.mem_cons_self _ _
      case _ =>
        obtain ⟨e', hmem, hrest⟩ := ih hfind hwfrest
        exact ⟨e', List.mem_cons_of_mem _ hmem, hrest⟩
    · obtain ⟨e', hmem, hrest⟩ := ih hfind hwfrest
      exact ⟨e', List.mem_cons_of_mem _ hmem, hrest⟩

/-! ## C5: fallback to the first pin -/

/-- C5: when a description matches a component (the first layout entry
that the iteration accepts) but the extracted pin name matches no pin of
that component, neither exactly nor by substring nor by digit run,
findConnectionPoint does not return null: it returns that component's
first pin in table insertion order at that pin's absolute coordinates.
Skipped earlier entries are exactly those that fail the component match
or have an empty pin table (the only way the source loop passes over a
matched component). -/
theorem findConnectionPoint_fallback (pointStr : String)
    (pre post : List (String × LayoutEntry)) (n : String) (e : LayoutEntry)
    (p0 : String) (pt0 : Pt) (restPins : List (String × Pt))
    (hskip : ∀ q ∈ pre, componentMatches pointStr q.1 = false ∨ q.2.absolutePins = [])
    (hmatch : componentMatches pointStr n = true)
    (hpins : e.absolutePins = (p0, pt0) :: restPins)
    (hexact : findPinExact (extractPinName n pointStr) e.absolutePins = none)
    (hnum : findPinByNumber (extractPinName n pointStr) e.absolutePins = none) :
    findConnectionPoint pointStr (pre ++ (n, e) :: post) =
      some ⟨n, p0, pt0.x, pt0.y⟩ := by
  induction pre with
  | nil =>
    have hres : resolveWithin pointStr n e.absolutePins = some ⟨n, p0, pt0.x, pt0.y⟩ := by
      unfold resolveWithin
      rw [hexact, hnum, hpins]
    simp [findConnectionPoint, hmatch, hres]
  | cons q pre' ih =>
    have ihh := ih (fun x hx => hskip x (List.mem_cons_of_mem _ hx))
    rcases hskip q (List.mem_cons_self _ _) with hq | hq
    · simpa [findConnectionPoint, hq] using ihh
    · by_cases hm : componentMatches pointStr q.1 = true
      · have hnone : resolveWithin pointStr q.1 q.2.absolutePins = none := by
          rw [hq]
          exact resolveWithin_nil _ _
        simpa [findConnectionPoint, hm, hnone] using ihh
      · simp only [Bool.not_eq_true] at hm
        simpa [findConnectionPoint, hm] using ihh

/-! ## C1: parseConnections emits a wire iff the line passes every gate -/

theorem parseOne_label (layout : List (String × LayoutEntry)) (c : String)
    (w : ConnectionWire) (h : parseOneConnection layout c = some w) : w.label = c := by
  unfold parseOneConnection at h
  split at h
  · exact absurd h (by simp)
  · split at h
    · split at h
      · injection h with h'
        subst h'
        rfl
      · exact absurd h (by simp)
    · exact absurd h (by simp)

theorem parseOne_isSome_iff (layout : List (String × LayoutEntry)) (c : String) :
    (∃ w, parseOneConnection layout c = some w) ↔
      (includesS (lowerS c) "upload" = false ∧ includesS (lowerS c) "code" = false ∧
        includesS (lowerS c) "program" = false ∧
        ∃ a b, (splitOnCharS '→' c).map trimS = [a, b] ∧
          (findConnectionPoint a layout).isSome = true ∧
          (findConnectionPoint b layout).isSome = true) := by
  unfold parseOneConnection
  by_cases hk : (includesS (lowerS c) "upload" || includesS (lowerS c) "code"
      || includesS (lowerS c) "program") = true
  · rw [if_pos hk]
    simp only [Bool.or_eq_true] at hk
    constructor
    · rintro ⟨w, hw⟩
      exact absurd hw (by simp)
    · rintro ⟨h1, h2, h3, -⟩
      rcases hk with (hk | hk) | hk
      · rw [h1] at hk
        exact absurd hk (by simp)
      · rw [h2] at hk
        exact absurd hk (by simp)
      · rw [h3] at hk
        exact absurd hk (by simp)
  · rw [if_neg hk]
    simp only [Bool.or_eq_true, not_or, Bool.not_eq_true] at hk
    obtain ⟨⟨h1, h2⟩, h3⟩ := hk
    simp only [h1, h2, h3, true_and]
    cases hsplit : (splitOnCharS '→' c).map trimS with
    | nil => simp [hsplit]
    | cons a rest =>
      cases rest with
      | nil => simp [hsplit]
      | cons b rest2 =>
        cases rest2 with
        | nil =>
          cases hfa : findConnectionPoint a layout with
          | none => simp [hsplit, hfa]
          | some f =>
            cases hfb : findConnectionPoint b layout with
            | none => simp [hsplit, hfb]
            | some t =>
              simp only [hsplit, hfa, hfb]
              constructor
              · intro
                refine ⟨a, b, rfl, ?_, ?_⟩
                · rw [hfa]
                  rfl
                · rw [hfb]
                  rfl
              · intro
                exact ⟨⟨f, t, getWireColor c, c⟩, rfl⟩
        | cons x rest3 => simp [hsplit]

/-- C1: a connection line produces a wire (one whose label is that line)
if and only if the lowercased line contains none of the keywords upload,
code, program; splitting the line on the arrow yields exactly two parts
after trimming; and both trimmed endpoint descriptions resolve through
findConnectionPoint.  A line failing any gate contributes no wire, and
parseConnections is total, so no error is raised. -/
theorem parseConnections_wire_iff (layout : List (String × LayoutEntry))
    (lines : List String) (c : String) (hc : c ∈ lines) :
    (∃ w, w ∈ parseConnections lines layout ∧ w.label = c) ↔
      (includesS (lowerS c) "upload" = false ∧ includesS (lowerS c) "code" = false ∧
        includesS (lowerS c) "program" = false ∧
        ∃ a b, (splitOnCharS '→' c).map trimS = [a, b] ∧
          (findConnectionPoint a layout).isSome = true ∧
          (findConnectionPoint b layout).isSome = true) := by
  rw [← parseOne_isSome_iff]
  constructor
  · rintro ⟨w, hw, hlabel⟩
    rw [parseConnections, List.mem_filterMap] at hw
    obtain ⟨c', hc', hpc⟩ := hw
    have hl : w.label = c' := parseOne_label layout c' w hpc
    rw [hl] at hlabel
    subst hlabel
    exact ⟨w, hpc⟩
  · rintro ⟨w, hw⟩
    refine ⟨w, ?_, parseOne_label layout c w hw⟩
    rw [parseConnections, List.mem_filterMap]
    exact ⟨c, hc, hw⟩

/-! ## Concrete layout used by the witnesses -/

/-- A nine-volt battery as loaded with a 100 by 60 box: its pin table is
exactly getComponentPinPositions applied to that box, written out as the
literal coordinates those fractions evaluate to. -/
def witnessBatteryData : ComponentSVGData :=
  ⟨"9V Battery", "", 100, 60,
    [("+", ⟨50, 0⟩), ("positive", ⟨50, 0⟩), ("-", ⟨50, 60⟩), ("negative", ⟨50, 60⟩)]⟩

/-- The battery placed at the origin, so the absolute pins coincide with
the local ones. -/
def witnessBatteryEntry : LayoutEntry :=
  ⟨witnessBatteryData, 0, 0,
    [("+", ⟨50, 0⟩), ("positive", ⟨50, 0⟩), ("-", ⟨50, 60⟩), ("negative", ⟨50, 60⟩)]⟩

/-- A one-component layout for the witnesses. -/
def witnessLayout : List (String × LayoutEntry) := [("9V Battery", witnessBatteryEntry)]

/-- Witness for C1: a line with exactly one arrow whose two endpoints both
resolve against the battery layout produces a wire labelled by the
line. -/
theorem parseConnections_wire_iff_witness :
    ∃ w, w ∈ parseConnections ["Battery + → Battery -"] witnessLayout ∧
      w.label = "Battery + → Battery -" :=
  (parseConnections_wire_iff witnessLayout ["Battery + → Battery -"]
      "Battery + → Battery -" (by decide)).mpr
    ⟨by decide, by decide, by decide, "Battery +", "Battery -",
      by decide, by decide, by decide⟩

/-- Witness for C5: the description names the battery but no known pin
(the extracted pin name FOO matches nothing), and the resolver falls back
to the first pin of the table, the plus terminal. -/
theorem findConnectionPoint_fallback_witness :
    findConnectionPoint "9V Battery FOO" witnessLayout =
      some ⟨"9V Battery", "+", 50, 0⟩ := by
  have h := findConnectionPoint_fallback "9V Battery FOO" [] [] "9V Battery"
    witnessBatteryEntry "+" ⟨50, 0⟩
    [("positive", ⟨50, 0⟩), ("-", ⟨50, 60⟩), ("negative", ⟨50, 60⟩)]
    (by simp) (by decide) (by decide) (by decide) (by decide)
  simpa [witnessLayout] using h

/-- Witness for C10: the resolved plus terminal of the battery is a real
pin of the placed component at its absolute position. -/
theorem findConnectionPoint_sound_witness :
    ∃ e : LayoutEntry, (("9V Battery" : String), e) ∈ witnessLayout ∧
      ∃ p : Pt, (("+" : String), p) ∈ e.component.pins ∧
        (50 : ℚ) = e.x + p.x ∧ (0 : ℚ) = e.y + p.y :=
  findConnectionPoint_sound "Battery +" witnessLayout ⟨"9V Battery", "+", 50, 0⟩
    (by decide)
    (by
      intro q hq
      simp only [witnessLayout, List.mem_singleton] at hq
      subst hq
      simp [witnessBatteryEntry, witnessBatteryData, calculateAbsolutePins])

/-! ## C7: canvas bounds -/

theorem foldl_max_init (f : (String × LayoutEntry) → ℚ) (l : List (String × LayoutEntry))
    (init : ℚ) : init ≤ l.foldl (fun m q => max m (f q)) init := by
  induction l generalizing init with
  | nil => exact le_refl init
  | cons a tl ih => exact le_trans (le_max_left _ _) (ih (max init (f a)))

theorem foldl_max_mem (f : (String × LayoutEntry) → ℚ) (l : List (String × LayoutEntry))
    (init : ℚ) (q : String × LayoutEntry) (hq : q ∈ l) :
    f q ≤ l.foldl (fun m x => max m (f x)) init := by
  induction l generalizing init with
  | nil => cases hq
  | cons a tl ih =>
    rcases List.mem_cons.mp hq with rfl | hq2
    · exact le_trans (le_max_right _ _) (foldl_max_init f tl (max init (f q)))
    · exact ih (max init (f a)) hq2

/-- C7: for every layout the canvas dimensions are the bounding box of
all placements plus the fixed padding (200 to the right, 250 below),
clamped to 2000 by 1500; the bounding fold dominates every placement, and
the emitted document opens with exactly these width and height
attributes. -/
theorem assembleFinalSVG_canvasBounds (circuitName : String)
    (layout : List (String × LayoutEntry)) (wires : List ConnectionWire) :
    canvasWidthOf layout ≤ 2000 ∧ canvasHeightOf layout ≤ 1500 ∧
    canvasWidthOf layout = min (maxXOf layout + 200) 2000 ∧
    canvasHeightOf layout = min (maxYOf layout + 250) 1500 ∧
    (∀ q ∈ layout, q.2.x + q.2.component.width ≤ maxXOf layout ∧
      q.2.y + q.2.component.height ≤ maxYOf layout) ∧
    ∃ rest, assembleFinalSVG circuitName layout wires =
      svgOpenTag (canvasWidthOf layout) (canvasHeightOf layout) ++ rest := by
  refine ⟨min_le_right _ _, min_le_right _ _, rfl, rfl, ?_, ?_⟩
  · intro q hq
    exact ⟨foldl_max_mem _ _ _ _ hq, foldl_max_mem _ _ _ _ hq⟩
  · refine ⟨(svgBackgroundGrid ++ svgTitleOpen (canvasWidthOf layout)) ++ circuitName ++
      svgAfterTitle layout wires (canvasWidthOf layout) (canvasHeightOf layout), ?_⟩
    show svgOpenTag _ _ ++ (svgBackgroundGrid ++ svgTitleOpen _) ++ circuitName ++
      svgAfterTitle _ _ _ _ = _
    simp only [strApp_assoc]

/-- Witness for C7: in the battery layout, the canvas is within bounds and
the battery placement is dominated by the bounding fold. -/
theorem assembleFinalSVG_canvasBounds_witness :
    canvasWidthOf witnessLayout ≤ 2000 ∧
    (("9V Battery", witnessBatteryEntry) : String × LayoutEntry).2.x +
        (("9V Battery", witnessBatteryEntry) : String × LayoutEntry).2.component.width ≤
      maxXOf witnessLayout :=
  ⟨(assembleFinalSVG_canvasBounds "Demo" witnessLayout []).1,
    ((assembleFinalSVG_canvasBounds "Demo" witnessLayout []).2.2.2.2.1 _ (by decide)).1⟩

/-! ## C8: the empty layout still renders -/

theorem canvasWidthOf_nil : canvasWidthOf [] = 200 := by
  norm_num [canvasWidthOf, maxXOf]

theorem canvasHeightOf_nil : canvasHeightOf [] = 250 := by
  norm_num [canvasHeightOf, maxYOf]

/-- C8: with an empty layout and no wires, assembleFinalSVG still returns
a complete document: it opens with the XML declaration, closes the svg
element, and contains the background rectangle, the title text, and the
legend; no error can be raised since the function is total. -/
theorem assembleFinalSVG_emptyLayout (name : String) :
    includesS (assembleFinalSVG name [] [])
      "<rect width=\"100%\" height=\"100%\" fill=\"#FAFAFA\"/>" = true ∧
    includesS (assembleFinalSVG name [] []) "Wire Color Guide:" = true ∧
    includesS (assembleFinalSVG name [] []) name = true ∧
    startsS (assembleFinalSVG name [] [])
      "<?xml version=\"1.0\" encoding=\"UTF-8\"?>" = true ∧
    endsS (assembleFinalSVG name [] []) "</svg>" = true := by
  have h1 : (200:ℚ) - 20 = 180 := by norm_num
  have h2 : (200:ℚ) / 2 = 100 := by norm_num
  have h3 : (250:ℚ) - 120 = 130 := by norm_num
  have h4 : (250:ℚ) - 10 = 240 := by norm_num
  have hform : assembleFinalSVG name [] [] =
      (svgOpenTag 200 250 ++ (svgBackgroundGrid ++ svgTitleOpen 200)) ++ name ++
        svgAfterTitle [] [] 200 250 := by
    simp only [assembleFinalSVG, canvasWidthOf_nil, canvasHeightOf_nil]
  rw [hform]
  have hbg : includesS (svgOpenTag 200 250 ++ (svgBackgroundGrid ++ svgTitleOpen 200))
      "<rect width=\"100%\" height=\"100%\" fill=\"#FAFAFA\"/>" = true := by
    simp only [svgTitleOpen, h1, h2]
    decide
  have hguide : includesS (svgAfterTitle [] [] 200 250) "Wire Color Guide:" = true := by
    simp only [svgAfterTitle, svgLegendFooter, h2, h3, h4]
    decide
  have hxml : startsS (svgOpenTag 200 250 ++ (svgBackgroundGrid ++ svgTitleOpen 200))
      "<?xml version=\"1.0\" encoding=\"UTF-8\"?>" = true := by
    exact startsS_appendLeft _ _ _ (by decide)
  have hend : endsS (svgAfterTitle [] [] 200 250) "</svg>" = true := by
    simp only [svgAfterTitle, svgLegendFooter, h2, h3, h4]
    decide
  refine ⟨?_, ?_, ?_, ?_, ?_⟩
  · exact includesS_appendLeft _ _ _ (includesS_appendLeft _ _ _ hbg)
  · exact includesS_appendRight _ _ _ hguide
  · exact includesS_appendLeft _ _ _ (includesS_appendRight _ _ _ (includesS_self name))
  · exact startsS_appendLeft _ _ _ (startsS_appendLeft _ _ _ hxml)
  · exact endsS_appendRight _ _ _ hend

/-! ## C9: determinism of rendering -/

/-- C9: assembleFinalSVG is deterministic: two applications to the same
circuit name, layout and wires give byte-identical output.  In this
embedding the renderer is a pure function of exactly these inputs (the
source uses no randomness, and the iteration order of its maps is the
insertion order modelled by the association lists), so the two runs are
definitionally the same string. -/
theorem assembleFinalSVG_deterministic (circuitName : String)
    (layout : List (String × LayoutEntry)) (wires : List ConnectionWire) :
    assembleFinalSVG circuitName layout wires = assembleFinalSVG circuitName layout wires :=
  rfl

/-! ## C6: escaping of user-supplied text -/

/-- Counterexample to C6 as stated: the circuit name is embedded in the
title without escaping.  With a name containing a raw less-than sign and
a raw ampersand, the document contains the raw name and does not contain
its escaped form anywhere, so the claim that every user-supplied text
(including the circuit name used as the title) is escaped is false. -/
theorem assembleFinalSVG_title_unescaped :
    includesS (assembleFinalSVG "x<y&" [] []) "x<y&" = true ∧
    includesS (assembleFinalSVG "x<y&" [] []) (escapeXml "x<y&") = false := by
  have h1 : (200:ℚ) - 20 = 180 := by norm_num
  have h2 : (200:ℚ) / 2 = 100 := by norm_num
  have h3 : (250:ℚ) - 120 = 130 := by norm_num
  have h4 : (250:ℚ) - 10 = 240 := by norm_num
  constructor <;>
  · simp only [assembleFinalSVG, canvasWidthOf_nil, canvasHeightOf_nil, svgTitleOpen,
      svgAfterTitle, svgLegendFooter, h1, h2, h3, h4]
    decide

/-- C6 amended: the two texts the source does escape are escaped — the
wire label embedded by drawWire and the component name embedded by
embedComponentSVG both appear through the escaping chain — while the
circuit name used as the title is embedded verbatim, with no escaping. -/
theorem userText_escaping (w : ConnectionWire) (n : String) (e : LayoutEntry)
    (circuitName : String) (layout : List (String × LayoutEntry))
    (wires : List ConnectionWire) :
    includesS (drawWire w) (escapeXml w.label) = true ∧
    includesS (embedComponentSVG n e) (escapeXml n) = true ∧
    ∃ u v, assembleFinalSVG circuitName layout wires = u ++ circuitName ++ v := by
  refine ⟨?_, ?_, ?_⟩
  · simp only [drawWire]
    repeat
      first
      | exact includesS_appendRight _ _ _ (includesS_self _)
      | apply includesS_appendLeft
  · simp only [embedComponentSVG]
    repeat
      first
      | exact includesS_appendRight _ _ _ (includesS_self _)
      | apply includesS_appendLeft
  · exact ⟨svgOpenTag (canvasWidthOf layout) (canvasHeightOf layout) ++
      (svgBackgroundGrid ++ svgTitleOpen (canvasWidthOf layout)),
      svgAfterTitle layout wires (canvasWidthOf layout) (canvasHeightOf layout), rfl⟩

end CircuitAssembler
